import Mathlib

/-!
Verification of the statistical NLP core of TEXT_TRINITY (`server/nlp.ts`).

The embedding is shallow and post-tokenization: a text is modelled by the
token list `tokenizeWords` produces for it (lowercased words), a document by
the token lists of its sentences.  All numeric score pipelines
(TF, IDF, TF-IDF, phrase scores, cosine similarity, clustering, keyword
extraction, summary sentence selection, algorithm recommendation) are
translated function by function from `server/nlp.ts`; JavaScript `Record`s,
whose key enumeration order is insertion order, are modelled as association
lists built in the same insertion order, and JavaScript's stable
`sort((a, b) => b.score - a.score)` as a stable descending insertion sort.
Scores are real numbers (`log10`/`sqrt` enter the formulas); purely rational
parts (the recommender) use `ℚ`.
-/

namespace NLP

/-- The stopword set of `nlp.ts` (`STOPWORDS`), as a list.  Apostrophes in
contractions are written with the `\x27` escape. -/
def STOPWORDS : List String := [
  "a", "about", "above", "after", "again", "against", "all", "am", "an", "and", "any", "are",
  "aren\x27t", "as", "at", "be", "because", "been", "before", "being", "below", "between", "both",
  "but", "by", "can\x27t", "cannot", "could", "couldn\x27t", "did", "didn\x27t", "do", "does",
  "doesn\x27t", "doing", "don\x27t", "down", "during", "each", "few", "for", "from", "further",
  "had", "hadn\x27t", "has", "hasn\x27t", "have", "haven\x27t", "having", "he", "he\x27d",
  "he\x27ll", "he\x27s", "her", "here", "here\x27s", "hers", "herself", "him", "himself", "his",
  "how", "how\x27s", "i", "i\x27d", "i\x27ll", "i\x27m", "i\x27ve", "if", "in", "into", "is",
  "isn\x27t", "it", "it\x27s", "its", "itself", "let\x27s", "me", "more", "most", "mustn\x27t",
  "my", "myself", "no", "nor", "not", "of", "off", "on", "once", "only", "or", "other", "ought",
  "our", "ours", "ourselves", "out", "over", "own", "same", "shan\x27t", "she", "she\x27d",
  "she\x27ll", "she\x27s", "should", "shouldn\x27t", "so", "some", "such", "than", "that",
  "that\x27s", "the", "their", "theirs", "them", "themselves", "then", "there", "there\x27s",
  "these", "they", "they\x27d", "they\x27ll", "they\x27re", "they\x27ve", "this", "those",
  "through", "to", "too", "under", "until", "up", "very", "was", "wasn\x27t", "we", "we\x27d",
  "we\x27ll", "we\x27re", "we\x27ve", "were", "weren\x27t", "what", "what\x27s", "when",
  "when\x27s", "where", "where\x27s", "which", "while", "who", "who\x27s", "whom", "why",
  "why\x27s", "with", "won\x27t", "would", "wouldn\x27t", "you", "you\x27d", "you\x27ll",
  "you\x27re", "you\x27ve", "your", "yours", "yourself", "yourselves"]

/-- The filter every scoring function applies to tokens
(`!STOPWORDS.has(word) && word.length > 2`). -/
def isValidWord (w : String) : Bool :=
  !(STOPWORDS.contains w) && decide (w.length > 2)

/-- Walk of `firstOccs`: emit each element not seen before, tracking the
seen set. -/
def firstOccsAux : List String → List String → List String
  | [], _ => []
  | w :: ws, seen =>
      if w ∈ seen then firstOccsAux ws seen else w :: firstOccsAux ws (w :: seen)

/-- Key list of a JavaScript `Record` built by repeated insertion: the
distinct elements in order of first occurrence. -/
def firstOccs (l : List String) : List String := firstOccsAux l []

/-- A document, modelled post-tokenization: the token lists of its sentences
(`tokenizeSentences` of the document, then `tokenizeWords` of each sentence).
The word tokens of the whole document are the concatenation. -/
abbrev Document := List (List String)

/-- Token list of a whole document (`tokenizeWords(doc)`). -/
def docWords (d : Document) : List String := d.flatten

/-- `calculateTF` (nlp.ts 58-76): counts of valid tokens divided by the TOTAL
token count (stopwords included in the denominator); the map's keys appear in
first-occurrence order. -/
noncomputable def calculateTF (words : List String) : List (String × ℝ) :=
  let valid := words.filter isValidWord
  (firstOccs valid).map (fun w => (w, (valid.count w : ℝ) / (words.length : ℝ)))

/-- Number of documents whose (valid-filtered) token set contains `w`
(the `wordDocs` counts of `calculateIDF`, nlp.ts 84-91). -/
def docFreq (documents : List Document) (w : String) : ℕ :=
  documents.countP (fun d => ((docWords d).filter isValidWord).contains w)

/-- Key list of the `wordDocs` record: words in order of first appearance
across the documents (each document contributes its valid words once, in
first-occurrence order, as the JS `Set` does). -/
def idfKeys (documents : List Document) : List String :=
  firstOccs ((documents.map (fun d => firstOccs ((docWords d).filter isValidWord))).flatten)

/-- The smoothed IDF value of `calculateIDF` (nlp.ts 97):
`log10((totalDocs + 1) / (df + 1)) + 1`. -/
noncomputable def idfVal (total df : ℕ) : ℝ :=
  Real.logb 10 (((total : ℝ) + 1) / ((df : ℝ) + 1)) + 1

/-- `calculateIDF` (nlp.ts 79-101). -/
noncomputable def calculateIDF (documents : List Document) : List (String × ℝ) :=
  (idfKeys documents).map (fun w => (w, idfVal documents.length (docFreq documents w)))

/-- JavaScript `map[key] || d`: the stored value unless the key is absent or
its value is `0` (falsy). -/
noncomputable def lookupOr (m : List (String × ℝ)) (k : String) (d : ℝ) : ℝ :=
  match m.find? (fun p => p.1 == k) with
  | some p => if p.2 = 0 then d else p.2
  | none => d

/-- `calculateTFIDF` (nlp.ts 104-112): `tf[word] * (idf[word] || 1)` over the
keys of `tf`. -/
noncomputable def calculateTFIDF (tf idf : List (String × ℝ)) : List (String × ℝ) :=
  tf.map (fun p => (p.1, p.2 * lookupOr idf p.1 1))

/-- Phrase string: n tokens joined by single spaces. -/
def joinSpace (ws : List String) : String := String.intercalate " " ws

/-- The n-gram window phrases of a token list, in reading order
(the loop of `extractPhrases`, nlp.ts 119-122; the loop body does not run
when the list is shorter than `n`). -/
def phraseWindows (n : ℕ) (ws : List String) : List String :=
  if ws.length < n then []
  else (List.range (ws.length - n + 1)).map (fun i => joinSpace ((ws.drop i).take n))

/-- `extractPhrases` (nlp.ts 115-125): frequency map of the n-grams of the
valid-filtered token list, keys in first-occurrence order. -/
def extractPhrases (words : List String) (n : ℕ) : List (String × ℕ) :=
  let ps := phraseWindows n (words.filter isValidWord)
  (firstOccs ps).map (fun p => (p, ps.count p))

/-- Stable descending insertion by key `f` (JavaScript's stable
`sort((a, b) => b.score - a.score)` places an earlier element before a later
one of equal score). -/
def insertDescBy {α : Type} {β : Type} [LinearOrder β] (f : α → β) (x : α) :
    List α → List α
  | [] => [x]
  | y :: ys => if f y ≤ f x then x :: y :: ys else y :: insertDescBy f x ys

/-- Stable descending sort by key `f` (JavaScript
`sort((a, b) => b.score - a.score)`). -/
def sortDescBy {α : Type} {β : Type} [LinearOrder β] (f : α → β) : List α → List α
  | [] => []
  | x :: xs => insertDescBy f x (sortDescBy f xs)

/-- Scores sorted descending: what JavaScript's stable
`sort((a, b) => b.score - a.score)` leaves behind. -/
def SortedDesc (l : List (String × ℝ)) : Prop :=
  List.Pairwise (fun p q => q.2 ≤ p.2) l

/-- Value stored under key `k`, `0` when absent (reading `vector[key]` where
JavaScript yields `undefined`, which the code's truthiness test and arithmetic
treat as the skipped/zero case). -/
noncomputable def lookup0 (m : List (String × ℝ)) (k : String) : ℝ :=
  match m.find? (fun p => p.1 == k) with
  | some p => p.2
  | none => 0

/-- Sum of squares of a sparse vector's stored values (the `magnitudeA`
accumulation of `cosineSimilarity` before the square root). -/
noncomputable def sqSum (v : List (String × ℝ)) : ℝ :=
  (v.map (fun p => p.2 * p.2)).sum

/-- Magnitude of a sparse vector (`Math.sqrt` of the accumulated squares). -/
noncomputable def magnitudeOf (v : List (String × ℝ)) : ℝ :=
  Real.sqrt (sqSum v)

/-- Dot product of `cosineSimilarity` (nlp.ts 164-169): iterate the keys of
`vectorA`; a key whose `vectorB[key]` is falsy (absent or `0`) is skipped. -/
noncomputable def dotJS (a b : List (String × ℝ)) : ℝ :=
  (a.map (fun p => if lookup0 b p.1 = 0 then 0 else p.2 * lookup0 b p.1)).sum

/-- `cosineSimilarity` (nlp.ts 158-183): returns `0` when either magnitude is
zero, otherwise the dot product over the product of magnitudes. -/
noncomputable def cosineSimilarity (a b : List (String × ℝ)) : ℝ :=
  if magnitudeOf a = 0 ∨ magnitudeOf b = 0 then 0
  else dotJS a b / (magnitudeOf a * magnitudeOf b)

/-- Raw term-count vector of a token list (the `vecA`/`vecB` built by
`calculateSentenceSimilarity`, nlp.ts 580-589), keys in first-occurrence
order. -/
noncomputable def wordFreqVector (ws : List String) : List (String × ℝ) :=
  (firstOccs ws).map (fun w => (w, (ws.count w : ℝ)))

/-- `calculateSentenceSimilarity` (nlp.ts 575-593): cosine similarity of the
raw (unfiltered) term-count vectors of the two sentences. -/
noncomputable def calculateSentenceSimilarity (a b : List String) : ℝ :=
  cosineSimilarity (wordFreqVector a) (wordFreqVector b)

/-- The inner loop of `clusterSimilarSentences` (nlp.ts 555-565): when
sentence `s` opens cluster `c`, every later still-unlabelled sentence with
similarity `> 0.5` to `s` is labelled `c`. -/
noncomputable def markCluster (s : List String) (c : ℕ)
    (rest : List (List String × Option ℕ)) : List (List String × Option ℕ) :=
  rest.map (fun q =>
    if q.2 = none ∧ calculateSentenceSimilarity s q.1 > 0.5 then (q.1, some c) else q)

/-- The outer loop of `clusterSimilarSentences` (nlp.ts 549-569) over the
list of (sentence, current label) pairs still to visit, with the next fresh
cluster id `c`.  An already-labelled head keeps its label
(`clusters[i] !== -1`: the outer loop does nothing); an unlabelled head opens
cluster `c` and runs the inner loop (`markCluster`) over the remaining
sentences before the pass moves on.  Returns the labels in sentence order. -/
noncomputable def clusterLabels : List (List String × Option ℕ) → ℕ → List ℕ
  | [], _ => []
  | (_, some k) :: rest, c => k :: clusterLabels rest c
  | (s, none) :: rest, c => c :: clusterLabels (markCluster s c rest) (c + 1)
termination_by l _ => l.length
decreasing_by
  · simp
  · simp [markCluster]

/-- The final value of the `clusterCount` counter of the same loop. -/
noncomputable def clusterFinalCount : List (List String × Option ℕ) → ℕ → ℕ
  | [], c => c
  | (_, some _) :: rest, c => clusterFinalCount rest c
  | (s, none) :: rest, c => clusterFinalCount (markCluster s c rest) (c + 1)
termination_by l _ => l.length
decreasing_by
  · simp
  · simp [markCluster]

/-- `clusterSimilarSentences` (nlp.ts 544-572): cluster label of every
sentence, in sentence order. -/
noncomputable def clusterSimilarSentences (sentences : List (List String)) : List ℕ :=
  clusterLabels (sentences.map (fun s => (s, none))) 0

/-- The final `clusterCount` of `clusterSimilarSentences`. -/
noncomputable def clusterCount (sentences : List (List String)) : ℕ :=
  clusterFinalCount (sentences.map (fun s => (s, none))) 0

/-- Splitter for the REGEX LITERAL `/\\s+/` that appears in
`enhancedSummarize` (nlp.ts 342 and 360): inside a regex literal `\\` is one
escaped backslash, so the pattern matches a literal backslash followed by one
or more letters `s` — not whitespace.  JavaScript's `split` on that regex is
modelled on the character list: a backslash directly followed by `s` ends the
current field and consumes the whole `s`-run (the Boolean flag records being
inside such a run). -/
def splitEscS : List Char → Bool → List Char → List (List Char)
  | [], _, cur => [cur.reverse]
  | c :: rest, inRun, cur =>
      if inRun && (c == 's') then splitEscS rest true cur
      else if (c == '\\') && (rest.head? == some 's') then
        cur.reverse :: splitEscS rest true []
      else splitEscS rest false (c :: cur)

/-- JavaScript `str.split(/\\s+/)` (see `splitEscS`). -/
def jsSplitEscS (s : String) : List String :=
  (splitEscS s.data false []).map (fun l => String.mk l)

/-- The `wordCount` computed at nlp.ts 342: `phrase.split(/\\s+/).length`.
For any phrase without a literal backslash this is `1`. -/
def phraseWordCount (phrase : String) : ℕ := (jsSplitEscS phrase).length

/-- The weight a phrase with occurrence `count > 1` receives in the
summarizer's merged keyword-score map (nlp.ts 340-347):
`(count / docCount) * (1 + (wordCount - 1) * 0.25) * 1.5` with `wordCount`
as the code computes it (`phraseWordCount`). -/
noncomputable def summaryPhraseScore (count docCount : ℕ) (phrase : String) : ℝ :=
  ((count : ℝ) / (docCount : ℝ)) * (1 + ((phraseWordCount phrase : ℝ) - 1) * 0.25) * 1.5

/-- The merged `keywordScores` record of `enhancedSummarize` (nlp.ts
337-347): the TF-IDF entries, then one entry per phrase occurring more than
once (phrase keys contain spaces, single-word TF-IDF keys do not, so the
spread plus assignment appends). -/
noncomputable def mergeKeywordScores (tfidf : List (String × ℝ))
    (phrases : List (String × ℕ)) (docCount : ℕ) : List (String × ℝ) :=
  tfidf ++ (phrases.filter (fun p => p.2 > 1)).map
    (fun p => (p.1, summaryPhraseScore p.2 docCount p.1))

/-- The `lengthFactor` of step 9 of `enhancedSummarize` (nlp.ts 359-365):
`sentences[index].split(/\\s+/).length` compared against 5 and 40. -/
noncomputable def sentenceLengthFactor (sentence : String) : ℝ :=
  if (jsSplitEscS sentence).length < 5 then 0.7
  else if (jsSplitEscS sentence).length > 40 then 0.8
  else 1

/-- A scored sentence as `enhancedSummarize` builds it at nlp.ts 384-389. -/
structure Scored where
  sentence : String
  originalIndex : ℕ
  score : ℝ
  cluster : ℕ
deriving Inhabited

/-- The greedy diversity pass of `enhancedSummarize` (nlp.ts 395-410) over
the ranked (descending-score) list: stop at `numSentences` selections; skip a
sentence whose cluster already contributed unless its score is `≥ 0.8`;
otherwise select it and record its cluster. -/
noncomputable def greedyGo (num : ℕ) :
    List Scored → List Scored → List ℕ → List Scored
  | [], sel, _ => sel.reverse
  | s :: rest, sel, cls =>
      if sel.length ≥ num then sel.reverse
      else if s.cluster ∈ cls ∧ s.score < 0.8 then greedyGo num rest sel cls
      else greedyGo num rest (s :: sel) (s.cluster :: cls)

open Classical in
/-- The backfill `while` loop of `enhancedSummarize` (nlp.ts 413-418), with
explicit fuel: while fewer than `num` sentences are selected (and fewer than
the whole ranked list), read `ranked[selected.length]` and push it only if it
is not already selected.  `none` means the fuel ran out with the loop
condition still true — the loop makes no progress on such a state. -/
noncomputable def backfillGo (ranked : List Scored) (num : ℕ) :
    ℕ → List Scored → Option (List Scored)
  | 0, sel =>
      if sel.length < num ∧ sel.length < ranked.length then none else some sel
  | fuel + 1, sel =>
      if sel.length < num ∧ sel.length < ranked.length then
        let next := ranked.getD sel.length default
        if next ∈ sel then backfillGo ranked num fuel sel
        else backfillGo ranked num fuel (sel ++ [next])
      else some sel

/-- The whole sentence-selection phase of `enhancedSummarize` (steps 12 and
the backfill, nlp.ts 394-418): the greedy diversity pass followed by the
backfill loop, run with the given fuel. -/
noncomputable def selectSentences (ranked : List Scored) (num fuel : ℕ) :
    Option (List Scored) :=
  backfillGo ranked num fuel (greedyGo num ranked [] [])

/-- `Math.ceil(count * (num / den))` for a natural `count` (the
`Math.ceil(count * 1.5)` / `* 1.2` / `* 0.8` of the keyword extractors). -/
def jsCeilFrac (num den count : ℕ) : ℕ := (num * count + (den - 1)) / den

/-- `Math.max(...scores)` over a score list.  The callers only ever use the
value mapped over the same list, so the empty case (JavaScript `-Infinity`)
never reaches an output; `0` stands in for it. -/
def maxOf {β : Type} [LinearOrder β] [Zero β] : List β → β
  | [] => 0
  | x :: xs => xs.foldl max x

/-- `extractWithStandardTFIDF` (nlp.ts 1119-1136): TF-IDF entries sorted by
score descending, truncated to `count`.  NOTE: this path applies no
normalization. -/
noncomputable def extractWithStandardTFIDF (words : List String)
    (documents : List Document) (count : ℕ) : List (String × ℝ) :=
  (sortDescBy Prod.snd (calculateTFIDF (calculateTF words) (calculateIDF documents))).take count

/-- The bigram keywords of `extractWithEnhancedTFIDF` (nlp.ts 1148-1153):
bigrams occurring more than once whose first and second space-separated parts
are not stopwords, scored `freq / docCount * 1.2`. -/
noncomputable def bigramKeywords (words : List String) (documents : List Document) :
    List (String × ℝ) :=
  ((extractPhrases words 2).filter (fun p =>
      decide (p.2 > 1) && !(STOPWORDS.contains ((p.1.splitOn " ").getD 0 "")) &&
        !(STOPWORDS.contains ((p.1.splitOn " ").getD 1 "")))).map
    (fun p => (p.1, (p.2 : ℝ) / (documents.length : ℝ) * 1.2))

/-- The trigram keywords of `extractWithEnhancedTFIDF` (nlp.ts 1155-1164):
trigrams occurring more than once whose first and last space-separated parts
are not stopwords, scored `freq / docCount * 1.3`. -/
noncomputable def trigramKeywords (words : List String) (documents : List Document) :
    List (String × ℝ) :=
  (((extractPhrases words 3).filter (fun p => decide (p.2 > 1))).filter (fun p =>
      !(STOPWORDS.contains ((p.1.splitOn " ").headD "")) &&
        !(STOPWORDS.contains ((p.1.splitOn " ").getLastD "")))).map
    (fun p => (p.1, (p.2 : ℝ) / (documents.length : ℝ) * 1.3))

/-- The `finalKeywords` of `extractWithEnhancedTFIDF` (nlp.ts 1167-1172):
`ceil(count*1.5)` standard TF-IDF keywords plus bigram and trigram keywords,
re-sorted by score descending, truncated to `count`. -/
noncomputable def enhancedFinalKeywords (words : List String)
    (documents : List Document) (count : ℕ) : List (String × ℝ) :=
  (sortDescBy Prod.snd
    (extractWithStandardTFIDF words documents (jsCeilFrac 3 2 count) ++
      bigramKeywords words documents ++ trigramKeywords words documents)).take count

/-- `extractWithEnhancedTFIDF` (nlp.ts 1139-1180): the `finalKeywords`
normalized by the maximum score of the truncated list. -/
noncomputable def extractWithEnhancedTFIDF (words : List String)
    (documents : List Document) (count : ℕ) : List (String × ℝ) :=
  (enhancedFinalKeywords words documents count).map
    (fun p => (p.1, p.2 / maxOf ((enhancedFinalKeywords words documents count).map Prod.snd)))

/-- Number of occurrences of `w` among the valid words of the documents'
first sentences (the `titleWordCounts` of `extractWithSimulatedBERT`,
nlp.ts 1198-1206; a document with no sentences contributes the empty
title). -/
def titleCount (documents : List Document) (w : String) : ℕ :=
  (((documents.map (fun d => d.headD [])).flatten).filter isValidWord).count w

/-- The boost factor of `extractWithSimulatedBERT` (nlp.ts 1209-1232): a
single-word keyword found in titles gets `+0.4 * share`, a multi-word keyword
with parts in titles gets `+0.3 * coveredShare`, anything else factor 1. -/
noncomputable def bertBoost (documents : List Document) (k : String × ℝ) : ℝ :=
  if ¬ (k.1.contains ' ') ∧ titleCount documents k.1 > 0 then
    1 + 0.4 * ((titleCount documents k.1 : ℝ) / (documents.length : ℝ))
  else if k.1.contains ' ' then
    if ((k.1.splitOn " ").filter (fun part => decide (titleCount documents part > 0))).length > 0
    then 1 + 0.3 * ((((k.1.splitOn " ").filter
      (fun part => decide (titleCount documents part > 0))).length : ℝ) /
        ((k.1.splitOn " ").length : ℝ))
    else 1
  else 1

/-- The dedup loop of `extractWithSimulatedBERT` (nlp.ts 1235-1258) over the
descending-sorted boosted keywords: drop a keyword that is a substring of an
already accepted one, otherwise accept it and stop as soon as `count`
keywords are accepted. -/
noncomputable def bertDedup (count : ℕ) :
    List (String × ℝ) → List String → List (String × ℝ) → List (String × ℝ)
  | [], _, acc => acc.reverse
  | kw :: rest, seen, acc =>
      if ∃ s ∈ seen, kw.1.data <:+: s.data then bertDedup count rest seen acc
      else if acc.length + 1 ≥ count then (kw :: acc).reverse
      else bertDedup count rest (kw.1 :: seen) (kw :: acc)

/-- The `uniqueKeywords` of `extractWithSimulatedBERT` (nlp.ts 1235-1258):
`ceil(count*1.2)` standard TF-IDF keywords plus the multi-word keywords of
the enhanced path at `ceil(count*0.8)`, title-boosted, sorted by score
descending, then deduplicated by the substring rule up to `count` entries. -/
noncomputable def bertUniqueKeywords (words : List String)
    (documents : List Document) (count : ℕ) : List (String × ℝ) :=
  bertDedup count
    (sortDescBy Prod.snd
      ((extractWithStandardTFIDF words documents (jsCeilFrac 6 5 count) ++
        (extractWithEnhancedTFIDF words documents (jsCeilFrac 4 5 count)).filter
          (fun k => k.1.contains ' ')).map
        (fun k => (k.1, k.2 * bertBoost documents k)))) [] []

/-- `extractWithSimulatedBERT` (nlp.ts 1183-1266): the `uniqueKeywords`
normalized by `min(1, score / max)`. -/
noncomputable def extractWithSimulatedBERT (words : List String)
    (documents : List Document) (count : ℕ) : List (String × ℝ) :=
  (bertUniqueKeywords words documents count).map
    (fun k => (k.1, min 1 (k.2 / maxOf ((bertUniqueKeywords words documents count).map Prod.snd))))

/-- The response record of the keyword extractor (`KeywordExtractionResponse`
of `shared/schema.ts`, keywords as (keyword, score) pairs). -/
structure KeywordExtractionResponse where
  keywords : List (String × ℝ)
  method : String

/-- `enhancedExtractKeywords` (nlp.ts 1086-1116): dispatch on the method
name (any unknown method falls back to the enhanced path) and echo the
method as `enhanced_${method}`. -/
noncomputable def enhancedExtractKeywords (words : List String)
    (documents : List Document) (count : ℕ) (method : String) :
    KeywordExtractionResponse :=
  { keywords :=
      if method = "enhanced_tfidf" then extractWithEnhancedTFIDF words documents count
      else if method = "bert_based" then extractWithSimulatedBERT words documents count
      else if method = "standard_tfidf" then extractWithStandardTFIDF words documents count
      else extractWithEnhancedTFIDF words documents count,
    method := "enhanced_" ++ method }

/-- One entry of the recommender's hard-coded algorithm table
(nlp.ts 1275-1373). -/
structure AlgoProfile where
  name : String
  taskTypes : List String
  strengths : List String
  weaknesses : List String
  resourceRequirements : String
  quality : String
  speed : String
  specialFeatures : List String
deriving DecidableEq

/-- The `algorithms` table of `recommendAlgorithm` (nlp.ts 1275-1373). -/
def algorithms : List AlgoProfile := [
  { name := "enhanced_extractive_tfidf",
    taskTypes := ["summarization"],
    strengths := ["Resource efficiency", "Speed", "No external API dependency"],
    weaknesses := ["Less coherent than abstractive methods", "Limited understanding of context"],
    resourceRequirements := "low", quality := "medium", speed := "high",
    specialFeatures := ["copyright-friendly", "extractive", "local-processing"] },
  { name := "bert_extractive",
    taskTypes := ["summarization"],
    strengths := ["Better semantic understanding", "Improved coherence", "Good with medium texts"],
    weaknesses := ["Higher resource requirements", "Slower than TF-IDF", "May require API access"],
    resourceRequirements := "medium", quality := "high", speed := "medium",
    specialFeatures := ["contextual-understanding", "extractive"] },
  { name := "bart_abstractive",
    taskTypes := ["summarization"],
    strengths := ["Generates new text", "Highest coherence", "Best semantic understanding"],
    weaknesses := ["Highest resource requirements", "Slowest option", "Requires API access"],
    resourceRequirements := "high", quality := "very high", speed := "low",
    specialFeatures := ["paraphrasing", "abstractive", "contextual-understanding"] },
  { name := "statistical_mt",
    taskTypes := ["translation"],
    strengths := ["Fast processing", "Low resource requirements", "Works offline"],
    weaknesses := ["Lower quality than neural methods", "Limited language support",
      "Literal translations"],
    resourceRequirements := "low", quality := "medium", speed := "high",
    specialFeatures := ["local-processing"] },
  { name := "neural_transformer",
    taskTypes := ["translation"],
    strengths := ["High quality translations", "Preserves context", "Good language support"],
    weaknesses := ["Requires API access", "Medium processing speed", "Medium cost"],
    resourceRequirements := "medium", quality := "high", speed := "medium",
    specialFeatures := ["contextual-understanding"] },
  { name := "enhanced_template",
    taskTypes := ["content_generation"],
    strengths := ["Very fast", "Consistent structure", "No API dependency"],
    weaknesses := ["Limited creativity", "Repetitive patterns", "Less contextual understanding"],
    resourceRequirements := "low", quality := "medium", speed := "very high",
    specialFeatures := ["local-processing", "copyright-friendly"] },
  { name := "fine_tuned_gpt",
    taskTypes := ["content_generation"],
    strengths := ["Highest creativity", "Natural language flow", "Best contextual understanding"],
    weaknesses := ["API dependency", "Higher costs", "Potential copyright concerns"],
    resourceRequirements := "high", quality := "very high", speed := "low",
    specialFeatures := ["creative", "contextual-understanding", "coherent"] },
  { name := "open_source_llm",
    taskTypes := ["content_generation"],
    strengths := ["Good quality", "More control", "Self-hosted option"],
    weaknesses := ["High local resource needs", "Setup complexity", "Model size limitations"],
    resourceRequirements := "high", quality := "high", speed := "medium",
    specialFeatures := ["creative", "configurable"] },
  { name := "enhanced_tfidf",
    taskTypes := ["keyword_extraction"],
    strengths := ["Very efficient", "Works with any domain", "No external dependencies"],
    weaknesses := ["Misses semantic relationships", "Word frequency bias",
      "Less context awareness"],
    resourceRequirements := "very low", quality := "medium", speed := "very high",
    specialFeatures := ["local-processing", "domain-agnostic"] },
  { name := "bert_keyword",
    taskTypes := ["keyword_extraction"],
    strengths := ["Semantic understanding", "Context awareness", "Better phrase extraction"],
    weaknesses := ["Higher resource requirements", "API dependency", "Slower processing"],
    resourceRequirements := "medium", quality := "high", speed := "medium",
    specialFeatures := ["contextual-understanding", "semantic-relationships"] }]

/-- `AlgorithmRecommendationRequest` of `shared/schema.ts` (optional fields
as `Option`). -/
structure AlgorithmRecommendationRequest where
  taskType : String
  textLength : ℤ
  contentDomain : Option String
  languageComplexity : Option String
  priorityFactor : String
  specialRequirements : Option (List String)

/-- `req.toLowerCase().replace(/_/g, '-')` applied to a special-requirement
tag (nlp.ts 1428). -/
def normalizeRequirement (r : String) : String :=
  r.toLower.map (fun c => if c = '_' then '-' else c)

/-- The balanced-priority tier score (nlp.ts 1395-1396):
2 / 1.5 / 1 / 0.5 for very high / high / medium / anything else. -/
def tierScore (t : String) : ℚ :=
  if t = "very high" then 2 else if t = "high" then 1.5 else if t = "medium" then 1 else 0.5

/-- The additive score of one candidate profile (nlp.ts 1385-1439). -/
def scoreAlgo (req : AlgorithmRecommendationRequest) (algo : AlgoProfile) : ℚ :=
  let priorityB : ℚ :=
    if req.priorityFactor = "speed" ∧ (algo.speed = "high" ∨ algo.speed = "very high") then 3
    else if req.priorityFactor = "quality" ∧
        (algo.quality = "high" ∨ algo.quality = "very high") then 3
    else if req.priorityFactor = "balanced" then tierScore algo.speed + tierScore algo.quality
    else 0
  let lengthB : ℚ :=
    if req.textLength < 1000 then (if algo.resourceRequirements = "low" then 1 else 0)
    else if req.textLength > 5000 then
      (if algo.resourceRequirements = "low" then 2 else 0) +
        (if algo.resourceRequirements = "medium" then 1 else 0)
    else 0
  let complexityB : ℚ :=
    match req.languageComplexity with
    | some lc =>
        if lc = "complex" ∧ (algo.quality = "high" ∨ algo.quality = "very high") then 1.5
        else if lc = "simple" ∧ algo.speed = "high" then 1
        else 0
    | none => 0
  let domainB : ℚ :=
    match req.contentDomain with
    | some d =>
        if d ≠ "" ∧ algo.specialFeatures.contains "contextual-understanding" then 1 else 0
    | none => 0
  let requirementsB : ℚ :=
    match req.specialRequirements with
    | some l =>
        if l ≠ [] then
          ((l.filter (fun r => algo.specialFeatures.contains (normalizeRequirement r))).length : ℚ)
        else 0
    | none => 0
  priorityB + lengthB + complexityB + domainB + requirementsB

/-- The task-type filter of `recommendAlgorithm` (nlp.ts 1376-1378). -/
def compatibleAlgorithms (taskType : String) : List AlgoProfile :=
  algorithms.filter (fun a => a.taskTypes.contains taskType)

/-- The scored and descending-sorted candidate list of `recommendAlgorithm`
(nlp.ts 1385-1442), as (name, raw score) pairs. -/
def scoredAlgorithms (req : AlgorithmRecommendationRequest) : List (String × ℚ) :=
  sortDescBy Prod.snd
    ((compatibleAlgorithms req.taskType).map (fun a => (a.name, scoreAlgo req a)))

/-- The recommendation result (`AlgorithmRecommendationResponse` of
`shared/schema.ts`; the `suggestedParameters` and `explanation` fields are
presentation strings no claim touches and are not modelled). -/
structure AlgorithmRecommendationResponse where
  recommendedAlgorithm : String
  confidence : ℚ
  alternativeAlgorithms : List (String × ℚ)

/-- `recommendAlgorithm` (nlp.ts 1270-1510): an empty compatible set throws
(the outer catch rethrows `Failed to generate algorithm recommendation`);
otherwise the top-scored candidate is recommended, with scores normalized by
the maximum and the two runners-up as alternatives. -/
def recommendAlgorithmE (req : AlgorithmRecommendationRequest) :
    Except String AlgorithmRecommendationResponse :=
  let compatible := compatibleAlgorithms req.taskType
  if compatible = [] then
    Except.error "Failed to generate algorithm recommendation"
  else
    let scored := scoredAlgorithms req
    let maxScore := maxOf (scored.map Prod.snd)
    let normalized := scored.map (fun p => (p.1, p.2 / maxScore))
    Except.ok
      { recommendedAlgorithm := (scored.headD ("", 0)).1,
        confidence := (normalized.headD ("", 0)).2,
        alternativeAlgorithms := (normalized.drop 1).take 2 }

/-- JavaScript `!text.trim()`: every character is whitespace. -/
def jsTrimIsEmpty (s : String) : Bool := s.data.all (fun c => c.isWhitespace)

/-- The request of the spec's concrete scenario 3: keyword extraction over a
6000-character text with priority `speed`, optional fields absent. -/
def speedRequest : AlgorithmRecommendationRequest :=
  { taskType := "keyword_extraction", textLength := 6000, contentDomain := none,
    languageComplexity := none, priorityFactor := "speed", specialRequirements := none }

/-- A ranked scored-sentence list on which the sentence-selection phase of
`enhancedSummarize` never terminates (five sentences, scores descending,
clusters 0,0,1,0,1, every score below the 0.8 diversity override, target
`numSentences = 3` as for a 5-sentence text with `length` ≠ short/medium:
`ceil(5 * 0.45) = 3`). -/
noncomputable def hangRanked : List Scored :=
  [{ sentence := "s0", originalIndex := 0, score := 0.6, cluster := 0 },
   { sentence := "s1", originalIndex := 1, score := 0.5, cluster := 0 },
   { sentence := "s2", originalIndex := 2, score := 0.4, cluster := 1 },
   { sentence := "s3", originalIndex := 3, score := 0.3, cluster := 0 },
   { sentence := "s4", originalIndex := 4, score := 0.2, cluster := 1 }]

/-- `summarizeText` (nlp.ts 276-294): the empty-text guard around
`enhancedSummarize`.  The body contains no `throw` of its own; its result is
abstracted as `result` because the rendering step draws random paraphrase
transforms (nlp.ts 596-651). -/
def summarizeTextE {α : Type} (text : String) (result : α) : Except String α :=
  if jsTrimIsEmpty text then Except.error "No text provided for summarization"
  else Except.ok result

/-- `extractKeywords` (nlp.ts 1065-1083): the empty-text guard around
`enhancedExtractKeywords` (a total function), with the text's token model
passed alongside the raw string. -/
noncomputable def extractKeywordsE (text : String) (words : List String) (documents : List Document)
    (count : ℕ) (method : String) : Except String KeywordExtractionResponse :=
  if jsTrimIsEmpty text then Except.error "No text provided for keyword extraction"
  else Except.ok (enhancedExtractKeywords words documents count method)

/-! ### Supporting lemmas -/

theorem mem_of_mem_firstOccsAux {x : String} :
    ∀ {l seen : List String}, x ∈ firstOccsAux l seen → x ∈ l
  | w :: ws, seen, h => by
      unfold firstOccsAux at h
      split at h
      · exact List.mem_cons_of_mem _ (mem_of_mem_firstOccsAux h)
      · rcases List.mem_cons.mp h with h | h
        · exact h ▸ List.mem_cons_self _ _
        · exact List.mem_cons_of_mem _ (mem_of_mem_firstOccsAux h)

theorem mem_of_mem_firstOccs {x : String} {l : List String} (h : x ∈ firstOccs l) :
    x ∈ l :=
  mem_of_mem_firstOccsAux h

theorem one_le_idfVal {total df : ℕ} (h : df ≤ total) : (1 : ℝ) ≤ idfVal total df := by
  unfold idfVal
  have h1 : (0 : ℝ) < (df : ℝ) + 1 := by positivity
  have h2 : (1 : ℝ) ≤ ((total : ℝ) + 1) / ((df : ℝ) + 1) := by
    rw [le_div_iff₀ h1]
    have : (df : ℝ) ≤ (total : ℝ) := Nat.cast_le.mpr h
    linarith
  have h3 : 0 ≤ Real.logb 10 (((total : ℝ) + 1) / ((df : ℝ) + 1)) :=
    Real.logb_nonneg (by norm_num) h2
  linarith

theorem one_le_docFreq_of_mem_idfKeys {documents : List Document} {w : String}
    (h : w ∈ idfKeys documents) : 1 ≤ docFreq documents w := by
  unfold idfKeys at h
  have h1 := mem_of_mem_firstOccs h
  rw [List.mem_flatten] at h1
  obtain ⟨l, hl, hw⟩ := h1
  rw [List.mem_map] at hl
  obtain ⟨d, hd, rfl⟩ := hl
  have h2 : w ∈ (docWords d).filter isValidWord := mem_of_mem_firstOccs hw
  unfold docFreq
  rw [Nat.succ_le_iff, List.countP_pos_iff]
  exact ⟨d, hd, by simpa using h2⟩

theorem docFreq_le_length (documents : List Document) (w : String) :
    docFreq documents w ≤ documents.length :=
  List.countP_le_length _

theorem lookup0_cons_self (q : String × ℝ) (rest : List (String × ℝ)) :
    lookup0 (q :: rest) q.1 = q.2 := by
  unfold lookup0
  simp [List.find?_cons_of_pos]

theorem lookup0_cons_ne (q : String × ℝ) (rest : List (String × ℝ)) {k : String}
    (h : k ≠ q.1) : lookup0 (q :: rest) k = lookup0 rest k := by
  unfold lookup0
  rw [List.find?_cons_of_neg]
  simpa using fun he => h he.symm

theorem lookup0_eq_zero_of_not_mem {v : List (String × ℝ)} {k : String}
    (h : k ∉ v.map Prod.fst) : lookup0 v k = 0 := by
  unfold lookup0
  rw [List.find?_eq_none.mpr]
  intro p hp hbeq
  have he : p.1 = k := eq_of_beq hbeq
  exact h (he ▸ List.mem_map_of_mem Prod.fst hp)

theorem lookup0_of_mem {v : List (String × ℝ)} {p : String × ℝ}
    (hnd : (v.map Prod.fst).Nodup) (hp : p ∈ v) : lookup0 v p.1 = p.2 := by
  induction v with
  | nil => cases hp
  | cons q rest ih =>
      rw [List.map_cons, List.nodup_cons] at hnd
      rcases List.mem_cons.mp hp with rfl | hmem
      · exact lookup0_cons_self _ _
      · have hne : p.1 ≠ q.1 := by
          rintro he
          exact hnd.1 (he ▸ List.mem_map_of_mem Prod.fst hmem)
        rw [lookup0_cons_ne _ _ hne]
        exact ih hnd.2 hmem

theorem dotJS_eq_sum_mul (a b : List (String × ℝ)) :
    dotJS a b = (a.map (fun p => p.2 * lookup0 b p.1)).sum := by
  unfold dotJS
  congr 1
  apply List.map_congr_left
  intro p _
  by_cases h : lookup0 b p.1 = 0
  · simp [h]
  · simp [h]

theorem sqSum_nonneg (v : List (String × ℝ)) : 0 ≤ sqSum v := by
  unfold sqSum
  apply List.sum_nonneg
  intro x hx
  rw [List.mem_map] at hx
  obtain ⟨p, _, rfl⟩ := hx
  exact mul_self_nonneg _

theorem dotJS_self {v : List (String × ℝ)} (hnd : (v.map Prod.fst).Nodup) :
    dotJS v v = sqSum v := by
  rw [dotJS_eq_sum_mul]
  unfold sqSum
  congr 1
  apply List.map_congr_left
  intro p hp
  rw [lookup0_of_mem hnd hp]

theorem sum_map_eq_finset_sum (F : String → ℝ → ℝ) :
    ∀ (v : List (String × ℝ)), (v.map Prod.fst).Nodup →
      (v.map (fun p => F p.1 p.2)).sum =
        ∑ k ∈ (v.map Prod.fst).toFinset, F k (lookup0 v k) := by
  intro v
  induction v with
  | nil => simp
  | cons q rest ih =>
      intro hnd
      rw [List.map_cons, List.nodup_cons] at hnd
      rw [List.map_cons, List.map_cons, List.sum_cons, List.toFinset_cons,
        Finset.sum_insert (by simpa using hnd.1)]
      congr 1
      · rw [lookup0_cons_self]
      · rw [ih hnd.2]
        apply Finset.sum_congr rfl
        intro k hk
        have hne : k ≠ q.1 := by
          rintro rfl
          exact hnd.1 (by simpa using hk)
        rw [lookup0_cons_ne _ _ hne]

theorem dotJS_comm {a b : List (String × ℝ)} (hna : (a.map Prod.fst).Nodup)
    (hnb : (b.map Prod.fst).Nodup) : dotJS a b = dotJS b a := by
  rw [dotJS_eq_sum_mul, dotJS_eq_sum_mul,
    sum_map_eq_finset_sum (fun k x => x * lookup0 b k) a hna,
    sum_map_eq_finset_sum (fun k x => x * lookup0 a k) b hnb]
  rw [Finset.sum_subset
      ((Finset.subset_union_left :
        (a.map Prod.fst).toFinset ⊆ (a.map Prod.fst).toFinset ∪ (b.map Prod.fst).toFinset))
      (fun x _ hx => by rw [lookup0_eq_zero_of_not_mem (by simpa using hx), zero_mul]),
    Finset.sum_subset
      ((Finset.subset_union_right :
        (b.map Prod.fst).toFinset ⊆ (a.map Prod.fst).toFinset ∪ (b.map Prod.fst).toFinset))
      (fun x _ hx => by rw [lookup0_eq_zero_of_not_mem (by simpa using hx), zero_mul])]
  apply Finset.sum_congr rfl
  intro k _
  ring

theorem markCluster_getElem (s : List String) (c : ℕ)
    (rest : List (List String × Option ℕ)) (j : ℕ) :
    (markCluster s c rest)[j]? = (rest[j]?).map (fun q =>
      if q.2 = none ∧ calculateSentenceSimilarity s q.1 > 0.5 then (q.1, some c) else q) := by
  unfold markCluster
  exact List.getElem?_map _ _ _

theorem markCluster_inv {s : List String} {c : ℕ}
    {rest : List (List String × Option ℕ)}
    (hinv : ∀ p ∈ rest, ∀ k, p.2 = some k → k < c) :
    ∀ p ∈ markCluster s c rest, ∀ k, p.2 = some k → k < c + 1 := by
  intro q hq k hk
  unfold markCluster at hq
  rw [List.mem_map] at hq
  obtain ⟨q₀, hq₀, rfl⟩ := hq
  by_cases hcond : q₀.2 = none ∧ calculateSentenceSimilarity s q₀.1 > 0.5
  · rw [if_pos hcond] at hk
    cases hk
    exact Nat.lt_succ_self _
  · rw [if_neg hcond] at hk
    exact lt_trans (hinv q₀ hq₀ k hk) (Nat.lt_succ_self c)

theorem clusterLabels_length : ∀ (l : List (List String × Option ℕ)) (c : ℕ),
    (clusterLabels l c).length = l.length := by
  intro l c
  induction l, c using clusterLabels.induct with
  | case1 c => simp [clusterLabels]
  | case2 s k rest c ih => rw [clusterLabels]; simpa using ih
  | case3 s rest c ih =>
      rw [clusterLabels]
      simp only [List.length_cons]
      rw [ih]
      simp [markCluster]

theorem clusterFinalCount_le : ∀ (l : List (List String × Option ℕ)) (c : ℕ),
    c ≤ clusterFinalCount l c := by
  intro l c
  induction l, c using clusterFinalCount.induct with
  | case1 c => rw [clusterFinalCount]
  | case2 s k rest c ih => rw [clusterFinalCount]; exact ih
  | case3 s rest c ih =>
      rw [clusterFinalCount]
      exact le_trans (Nat.le_succ c) ih

theorem clusterLabels_lt : ∀ (l : List (List String × Option ℕ)) (c : ℕ),
    (∀ p ∈ l, ∀ k, p.2 = some k → k < c) →
    ∀ x ∈ clusterLabels l c, x < clusterFinalCount l c := by
  intro l c
  induction l, c using clusterLabels.induct with
  | case1 c =>
      intro _ x hx
      rw [clusterLabels] at hx
      cases hx
  | case2 s k rest c ih =>
      intro hinv x hx
      rw [clusterLabels] at hx
      rw [clusterFinalCount]
      rcases List.mem_cons.mp hx with rfl | hx
      · exact lt_of_lt_of_le (hinv (s, some x) (List.mem_cons_self _ _) x rfl)
          (clusterFinalCount_le rest c)
      · exact ih (fun p hp => hinv p (List.mem_cons_of_mem _ hp)) x hx
  | case3 s rest c ih =>
      intro hinv x hx
      rw [clusterLabels] at hx
      rw [clusterFinalCount]
      rcases List.mem_cons.mp hx with rfl | hx
      · exact lt_of_lt_of_le (Nat.lt_succ_self x) (clusterFinalCount_le _ _)
      · exact ih (markCluster_inv (fun p hp => hinv p (List.mem_cons_of_mem _ hp))) x hx

theorem clusterLabels_mem_of_lt : ∀ (l : List (List String × Option ℕ)) (c : ℕ),
    ∀ k, c ≤ k → k < clusterFinalCount l c → k ∈ clusterLabels l c := by
  intro l c
  induction l, c using clusterLabels.induct with
  | case1 c =>
      intro k hck hkc
      rw [clusterFinalCount] at hkc
      exact absurd hkc (not_lt.mpr hck)
  | case2 s k0 rest c ih =>
      intro k hck hkc
      rw [clusterFinalCount] at hkc
      rw [clusterLabels]
      exact List.mem_cons_of_mem _ (ih k hck hkc)
  | case3 s rest c ih =>
      intro k hck hkc
      rw [clusterFinalCount] at hkc
      rw [clusterLabels]
      by_cases hkc0 : k = c
      · exact hkc0 ▸ List.mem_cons_self _ _
      · exact List.mem_cons_of_mem _
          (ih k (Nat.succ_le_of_lt (lt_of_le_of_ne hck (Ne.symm hkc0))) hkc)

theorem clusterLabels_preserved : ∀ (l : List (List String × Option ℕ)) (c : ℕ),
    ∀ (j : ℕ) (p : List String × Option ℕ) (k : ℕ),
      l[j]? = some p → p.2 = some k → (clusterLabels l c)[j]? = some k := by
  intro l c
  induction l, c using clusterLabels.induct with
  | case1 c =>
      intro j p k hj _
      simp at hj
  | case2 s k0 rest c ih =>
      intro j p k hj hk
      rw [clusterLabels]
      cases j with
      | zero =>
          rw [List.getElem?_cons_zero] at hj ⊢
          injection hj with hj
          rw [← hj] at hk
          simp only at hk
          rw [hk]
      | succ j =>
          rw [List.getElem?_cons_succ] at hj ⊢
          exact ih j p k hj hk
  | case3 s rest c ih =>
      intro j p k hj hk
      rw [clusterLabels]
      cases j with
      | zero =>
          rw [List.getElem?_cons_zero] at hj
          injection hj with hj
          rw [← hj] at hk
          exact Option.noConfusion hk
      | succ j =>
          rw [List.getElem?_cons_succ] at hj ⊢
          refine ih j p k ?_ hk
          rw [markCluster_getElem, hj]
          simp only [Option.map_some']
          congr 1
          rw [if_neg]
          rintro ⟨hnone, -⟩
          rw [hnone] at hk
          cases hk
  
theorem clusterLabels_low : ∀ (l : List (List String × Option ℕ)) (c : ℕ),
    ∀ (j k : ℕ), (clusterLabels l c)[j]? = some k → k < c →
    ∃ p, l[j]? = some p ∧ p.2 = some k := by
  intro l c
  induction l, c using clusterLabels.induct with
  | case1 c =>
      intro j k hj _
      rw [clusterLabels] at hj
      simp at hj
  | case2 s k0 rest c ih =>
      intro j k hj hkc
      rw [clusterLabels] at hj
      cases j with
      | zero =>
          rw [List.getElem?_cons_zero] at hj
          injection hj with hj
          exact ⟨(s, some k0), by simp, by rw [hj]⟩
      | succ j =>
          rw [List.getElem?_cons_succ] at hj
          obtain ⟨p, hp, hp2⟩ := ih j k hj hkc
          exact ⟨p, by rw [List.getElem?_cons_succ]; exact hp, hp2⟩
  | case3 s rest c ih =>
      intro j k hj hkc
      rw [clusterLabels] at hj
      cases j with
      | zero =>
          rw [List.getElem?_cons_zero] at hj
          injection hj with hj
          omega
      | succ j =>
          rw [List.getElem?_cons_succ] at hj
          obtain ⟨q, hq, hq2⟩ := ih j k hj (lt_trans hkc (Nat.lt_succ_self c))
          rw [markCluster_getElem] at hq
          match hrest : rest[j]? with
          | none => rw [hrest] at hq; cases hq
          | some q₀ =>
              rw [hrest] at hq
              simp only [Option.map_some', Option.some_inj] at hq
              refine ⟨q₀, by rw [List.getElem?_cons_succ]; exact hrest, ?_⟩
              by_cases hcond : q₀.2 = none ∧ calculateSentenceSimilarity s q₀.1 > 0.5
              · rw [if_pos hcond] at hq
                rw [← hq] at hq2
                have hck : c = k := Option.some.inj hq2
                omega
              · rw [if_neg hcond] at hq
                rw [hq]
                exact hq2

theorem mem_insertDescBy {α β : Type} [LinearOrder β] (f : α → β) (x : α) :
    ∀ (l : List α) (z : α), z ∈ insertDescBy f x l ↔ z = x ∨ z ∈ l := by
  intro l
  induction l with
  | nil => intro z; simp [insertDescBy]
  | cons y ys ih =>
      intro z
      unfold insertDescBy
      split
      · simp [List.mem_cons]
      · simp only [List.mem_cons, ih]
        tauto

theorem pairwise_insertDescBy {α β : Type} [LinearOrder β] (f : α → β) (x : α) :
    ∀ l : List α, List.Pairwise (fun a b => f b ≤ f a) l →
      List.Pairwise (fun a b => f b ≤ f a) (insertDescBy f x l) := by
  intro l
  induction l with
  | nil => intro _; simp [insertDescBy]
  | cons y ys ih =>
      intro hp
      rw [List.pairwise_cons] at hp
      unfold insertDescBy
      split
      · rename_i hyx
        rw [List.pairwise_cons]
        refine ⟨?_, List.pairwise_cons.mpr hp⟩
        intro z hz
        rcases List.mem_cons.mp hz with rfl | hz
        · exact hyx
        · exact le_trans (hp.1 z hz) hyx
      · rename_i hxy
        rw [List.pairwise_cons]
        constructor
        · intro z hz
          rw [mem_insertDescBy] at hz
          rcases hz with rfl | hz
          · exact le_of_not_le hxy
          · exact hp.1 z hz
        · exact ih hp.2

theorem sortDescBy_pairwise {α β : Type} [LinearOrder β] (f : α → β) :
    ∀ l : List α, List.Pairwise (fun a b => f b ≤ f a) (sortDescBy f l) := by
  intro l
  induction l with
  | nil => simp [sortDescBy]
  | cons x xs ih =>
      unfold sortDescBy
      exact pairwise_insertDescBy f x _ ih

theorem mem_sortDescBy {α β : Type} [LinearOrder β] (f : α → β) :
    ∀ (l : List α) (z : α), z ∈ sortDescBy f l ↔ z ∈ l := by
  intro l
  induction l with
  | nil => intro z; simp [sortDescBy]
  | cons x xs ih =>
      intro z
      unfold sortDescBy
      rw [mem_insertDescBy]
      simp only [List.mem_cons, ih]

theorem foldl_max_eq {β : Type} [LinearOrder β] {x : β} :
    ∀ {xs : List β}, (∀ y ∈ xs, y ≤ x) → xs.foldl max x = x
  | [], _ => rfl
  | y :: ys, h => by
      rw [List.foldl_cons, max_eq_left (h y (List.mem_cons_self _ _))]
      exact foldl_max_eq (fun z hz => h z (List.mem_cons_of_mem _ hz))

theorem sortedDesc_head_le {p : String × ℝ} {rest : List (String × ℝ)}
    (hs : SortedDesc (p :: rest)) : ∀ q ∈ p :: rest, q.2 ≤ p.2 := by
  unfold SortedDesc at hs
  rw [List.pairwise_cons] at hs
  intro q hq
  rcases List.mem_cons.mp hq with rfl | hq
  · exact le_refl _
  · exact hs.1 q hq

theorem maxOf_head {p : String × ℝ} {rest : List (String × ℝ)}
    (hs : SortedDesc (p :: rest)) : maxOf ((p :: rest).map Prod.snd) = p.2 := by
  rw [List.map_cons]
  show (rest.map Prod.snd).foldl max p.2 = p.2
  apply foldl_max_eq
  intro y hy
  rw [List.mem_map] at hy
  obtain ⟨q, hq, rfl⟩ := hy
  exact sortedDesc_head_le hs q (List.mem_cons_of_mem _ hq)

theorem normalize_div_props (l : List (String × ℝ)) (hs : SortedDesc l)
    (hpos : ∀ p ∈ l, 0 < p.2) :
    SortedDesc (l.map (fun p => (p.1, p.2 / maxOf (l.map Prod.snd)))) ∧
    (∀ q ∈ l.map (fun p => (p.1, p.2 / maxOf (l.map Prod.snd))), 0 < q.2 ∧ q.2 ≤ 1) ∧
    (l ≠ [] →
      ((l.map (fun p => (p.1, p.2 / maxOf (l.map Prod.snd)))).headD ("", 0)).2 = 1) := by
  cases l with
  | nil => simp [SortedDesc]
  | cons p rest =>
      have hm : maxOf ((p :: rest).map Prod.snd) = p.2 := maxOf_head hs
      have hp2 : 0 < p.2 := hpos p (List.mem_cons_self _ _)
      refine ⟨?_, ?_, ?_⟩
      · unfold SortedDesc
        rw [List.pairwise_map]
        have hm0 : 0 < maxOf ((p :: rest).map Prod.snd) := by rw [hm]; exact hp2
        apply List.Pairwise.imp _ hs
        intro a b hab
        exact (div_le_div_iff_of_pos_right hm0).mpr hab
      · intro q hq
        rw [List.mem_map] at hq
        obtain ⟨r, hr, rfl⟩ := hq
        rw [hm]
        exact ⟨div_pos (hpos r hr) hp2,
          div_le_one_of_le₀ (sortedDesc_head_le hs r hr) (le_of_lt hp2)⟩
      · intro _
        rw [List.map_cons, List.headD_cons, hm]
        exact div_self (ne_of_gt hp2)

theorem normalize_min_props (l : List (String × ℝ)) (hs : SortedDesc l)
    (hpos : ∀ p ∈ l, 0 < p.2) :
    SortedDesc (l.map (fun p => (p.1, min 1 (p.2 / maxOf (l.map Prod.snd))))) ∧
    (∀ q ∈ l.map (fun p => (p.1, min 1 (p.2 / maxOf (l.map Prod.snd)))), 0 < q.2 ∧ q.2 ≤ 1) ∧
    (l ≠ [] →
      ((l.map (fun p => (p.1, min 1 (p.2 / maxOf (l.map Prod.snd))))).headD ("", 0)).2 = 1) := by
  cases l with
  | nil => simp [SortedDesc]
  | cons p rest =>
      have hm : maxOf ((p :: rest).map Prod.snd) = p.2 := maxOf_head hs
      have hp2 : 0 < p.2 := hpos p (List.mem_cons_self _ _)
      have hm0 : 0 < maxOf ((p :: rest).map Prod.snd) := by rw [hm]; exact hp2
      refine ⟨?_, ?_, ?_⟩
      · unfold SortedDesc
        rw [List.pairwise_map]
        apply List.Pairwise.imp _ hs
        intro a b hab
        exact min_le_min (le_refl 1) ((div_le_div_iff_of_pos_right hm0).mpr hab)
      · intro q hq
        rw [List.mem_map] at hq
        obtain ⟨r, hr, rfl⟩ := hq
        exact ⟨lt_min one_pos (div_pos (hpos r hr) hm0), min_le_left _ _⟩
      · intro _
        rw [List.map_cons, List.headD_cons, hm, div_self (ne_of_gt hp2)]
        exact min_self 1

theorem calculateTF_pos (words : List String) :
    ∀ p ∈ calculateTF words, 0 < p.2 := by
  intro p hp
  simp only [calculateTF, List.mem_map] at hp
  obtain ⟨w, hw, rfl⟩ := hp
  have hwv : w ∈ words.filter isValidWord := mem_of_mem_firstOccs hw
  have hcount : 0 < (words.filter isValidWord).count w := List.count_pos_iff.mpr hwv
  have hlen : 0 < words.length :=
    List.length_pos.mpr (List.ne_nil_of_mem (List.mem_of_mem_filter hwv))
  exact div_pos (by exact_mod_cast hcount) (by exact_mod_cast hlen)

theorem lookupOr_idf_pos (documents : List Document) (k : String) :
    0 < lookupOr (calculateIDF documents) k 1 := by
  unfold lookupOr
  cases hf : (calculateIDF documents).find? (fun p => p.1 == k) with
  | none => norm_num
  | some p =>
      show 0 < if p.2 = 0 then (1:ℝ) else p.2
      by_cases h0 : p.2 = 0
      · rw [if_pos h0]; norm_num
      · rw [if_neg h0]
        have hmem : p ∈ calculateIDF documents := List.mem_of_find?_eq_some hf
        simp only [calculateIDF, List.mem_map] at hmem
        obtain ⟨w, hw, rfl⟩ := hmem
        have h1 := one_le_idfVal (docFreq_le_length documents w)
        linarith

theorem calculateTFIDF_pos (words : List String) (documents : List Document) :
    ∀ p ∈ calculateTFIDF (calculateTF words) (calculateIDF documents), 0 < p.2 := by
  intro p hp
  unfold calculateTFIDF at hp
  rw [List.mem_map] at hp
  obtain ⟨q, hq, rfl⟩ := hp
  exact mul_pos (calculateTF_pos words q hq) (lookupOr_idf_pos documents q.1)

theorem standardKeywords_props (words : List String) (documents : List Document)
    (count : ℕ) :
    (extractWithStandardTFIDF words documents count).length ≤ count ∧
    SortedDesc (extractWithStandardTFIDF words documents count) ∧
    (∀ p ∈ extractWithStandardTFIDF words documents count, 0 < p.2) := by
  unfold extractWithStandardTFIDF
  refine ⟨List.length_take_le _ _, ?_, ?_⟩
  · exact List.Pairwise.sublist (List.take_sublist _ _) (sortDescBy_pairwise Prod.snd _)
  · intro p hp
    have hp1 := List.mem_of_mem_take hp
    rw [mem_sortDescBy] at hp1
    exact calculateTFIDF_pos words documents p hp1

theorem bigramKeywords_pos (words : List String) {documents : List Document}
    (hd : documents ≠ []) : ∀ p ∈ bigramKeywords words documents, 0 < p.2 := by
  intro p hp
  unfold bigramKeywords at hp
  rw [List.mem_map] at hp
  obtain ⟨q, hq, rfl⟩ := hp
  rw [List.mem_filter] at hq
  have hfreq : 1 < q.2 := by
    have h := hq.2
    simp only [Bool.and_eq_true, decide_eq_true_eq] at h
    exact h.1.1
  have hlen : 0 < documents.length := List.length_pos.mpr hd
  refine mul_pos (div_pos ?_ ?_) (by norm_num)
  · exact_mod_cast lt_trans one_pos hfreq
  · exact_mod_cast hlen

theorem trigramKeywords_pos (words : List String) {documents : List Document}
    (hd : documents ≠ []) : ∀ p ∈ trigramKeywords words documents, 0 < p.2 := by
  intro p hp
  unfold trigramKeywords at hp
  rw [List.mem_map] at hp
  obtain ⟨q, hq, rfl⟩ := hp
  rw [List.mem_filter, List.mem_filter] at hq
  have hfreq : 1 < q.2 := by
    have h := hq.1.2
    simpa using h
  have hlen : 0 < documents.length := List.length_pos.mpr hd
  refine mul_pos (div_pos ?_ ?_) (by norm_num)
  · exact_mod_cast lt_trans one_pos hfreq
  · exact_mod_cast hlen

theorem enhancedFinal_props (words : List String) (documents : List Document)
    (count : ℕ) (hd : documents ≠ []) :
    (enhancedFinalKeywords words documents count).length ≤ count ∧
    SortedDesc (enhancedFinalKeywords words documents count) ∧
    (∀ p ∈ enhancedFinalKeywords words documents count, 0 < p.2) := by
  unfold enhancedFinalKeywords
  refine ⟨List.length_take_le _ _, ?_, ?_⟩
  · exact List.Pairwise.sublist (List.take_sublist _ _) (sortDescBy_pairwise Prod.snd _)
  · intro p hp
    have hp1 := List.mem_of_mem_take hp
    rw [mem_sortDescBy] at hp1
    rcases List.mem_append.mp hp1 with hp2 | hp2
    · rcases List.mem_append.mp hp2 with hp3 | hp3
      · exact (standardKeywords_props words documents _).2.2 p hp3
      · exact bigramKeywords_pos words hd p hp3
    · exact trigramKeywords_pos words hd p hp2

theorem enhancedKeywords_props (words : List String) (documents : List Document)
    (count : ℕ) (hd : documents ≠ []) :
    (extractWithEnhancedTFIDF words documents count).length ≤ count ∧
    SortedDesc (extractWithEnhancedTFIDF words documents count) ∧
    (∀ p ∈ extractWithEnhancedTFIDF words documents count, 0 < p.2 ∧ p.2 ≤ 1) ∧
    (extractWithEnhancedTFIDF words documents count ≠ [] →
      ((extractWithEnhancedTFIDF words documents count).headD ("", 0)).2 = 1) := by
  obtain ⟨hlen, hsort, hpos⟩ := enhancedFinal_props words documents count hd
  obtain ⟨h1, h2, h3⟩ := normalize_div_props (enhancedFinalKeywords words documents count)
    hsort hpos
  refine ⟨?_, h1, h2, ?_⟩
  · unfold extractWithEnhancedTFIDF
    rw [List.length_map]
    exact hlen
  · intro hne
    apply h3
    intro hnil
    apply hne
    unfold extractWithEnhancedTFIDF
    rw [hnil]
    rfl

theorem bertBoost_ge_one (documents : List Document) (k : String × ℝ) :
    1 ≤ bertBoost documents k := by
  unfold bertBoost
  split
  · have h1 : (0:ℝ) ≤ (titleCount documents k.1 : ℝ) / (documents.length : ℝ) := by
      apply div_nonneg <;> positivity
    nlinarith
  · split
    · split
      · rename_i hparts
        have h1 : (0:ℝ) ≤ ((((k.1.splitOn " ").filter
            (fun part => decide (titleCount documents part > 0))).length : ℝ) /
              (((k.1.splitOn " ").length : ℝ))) := by
          apply div_nonneg <;> positivity
        nlinarith
      · exact le_refl 1
    · exact le_refl 1

theorem bertDedup_append (count : ℕ) :
    ∀ (l : List (String × ℝ)) (seen : List String) (acc : List (String × ℝ)),
      ∃ sub : List (String × ℝ),
        bertDedup count l seen acc = acc.reverse ++ sub ∧ sub.Sublist l := by
  intro l
  induction l with
  | nil =>
      intro seen acc
      exact ⟨[], by simp [bertDedup], List.nil_sublist []⟩
  | cons kw rest ih =>
      intro seen acc
      unfold bertDedup
      split
      · obtain ⟨sub, heq, hsub⟩ := ih seen acc
        exact ⟨sub, heq, hsub.cons _⟩
      · split
        · exact ⟨[kw], by simp, (List.nil_sublist rest).cons₂ kw⟩
        · obtain ⟨sub, heq, hsub⟩ := ih (kw.1 :: seen) (kw :: acc)
          refine ⟨kw :: sub, ?_, hsub.cons₂ kw⟩
          rw [heq]
          simp

theorem bertDedup_length (count : ℕ) :
    ∀ (l : List (String × ℝ)) (seen : List String) (acc : List (String × ℝ)),
      acc.length < count → (bertDedup count l seen acc).length ≤ count := by
  intro l
  induction l with
  | nil =>
      intro seen acc h
      unfold bertDedup
      rw [List.length_reverse]
      omega
  | cons kw rest ih =>
      intro seen acc h
      unfold bertDedup
      split
      · exact ih _ _ h
      · split
        · rename_i hge
          simp only [List.length_reverse, List.length_cons]
          omega
        · rename_i hlt
          apply ih
          simp only [List.length_cons]
          omega

theorem bertUnique_props (words : List String) (documents : List Document)
    (count : ℕ) (hd : documents ≠ []) (hc : 0 < count) :
    (bertUniqueKeywords words documents count).length ≤ count ∧
    SortedDesc (bertUniqueKeywords words documents count) ∧
    (∀ p ∈ bertUniqueKeywords words documents count, 0 < p.2) := by
  unfold bertUniqueKeywords
  have hboostpos : ∀ p ∈ (extractWithStandardTFIDF words documents (jsCeilFrac 6 5 count) ++
      (extractWithEnhancedTFIDF words documents (jsCeilFrac 4 5 count)).filter
        (fun k => k.1.contains ' ')).map
      (fun k => (k.1, k.2 * bertBoost documents k)), 0 < p.2 := by
    intro p hp
    rw [List.mem_map] at hp
    obtain ⟨q, hq, rfl⟩ := hp
    have hqpos : 0 < q.2 := by
      rcases List.mem_append.mp hq with hq1 | hq1
      · exact (standardKeywords_props words documents _).2.2 q hq1
      · exact ((enhancedKeywords_props words documents _ hd).2.2.1 q
          (List.mem_of_mem_filter hq1)).1
    exact mul_pos hqpos (lt_of_lt_of_le one_pos (bertBoost_ge_one documents q))
  obtain ⟨sub, heq, hsub⟩ := bertDedup_append count (sortDescBy Prod.snd _) [] []
  rw [heq]
  simp only [List.reverse_nil, List.nil_append]
  refine ⟨?_, ?_, ?_⟩
  · have := bertDedup_length count (sortDescBy Prod.snd ((extractWithStandardTFIDF words
      documents (jsCeilFrac 6 5 count) ++
      (extractWithEnhancedTFIDF words documents (jsCeilFrac 4 5 count)).filter
        (fun k => k.1.contains ' ')).map
      (fun k => (k.1, k.2 * bertBoost documents k)))) [] [] (by simpa using hc)
    rw [heq] at this
    simpa using this
  · exact List.Pairwise.sublist hsub (sortDescBy_pairwise Prod.snd _)
  · intro p hp
    have hp1 := hsub.mem hp
    rw [mem_sortDescBy] at hp1
    exact hboostpos p hp1

theorem bertKeywords_props (words : List String) (documents : List Document)
    (count : ℕ) (hd : documents ≠ []) (hc : 0 < count) :
    (extractWithSimulatedBERT words documents count).length ≤ count ∧
    SortedDesc (extractWithSimulatedBERT words documents count) ∧
    (∀ p ∈ extractWithSimulatedBERT words documents count, 0 < p.2 ∧ p.2 ≤ 1) ∧
    (extractWithSimulatedBERT words documents count ≠ [] →
      ((extractWithSimulatedBERT words documents count).headD ("", 0)).2 = 1) := by
  obtain ⟨hlen, hsort, hpos⟩ := bertUnique_props words documents count hd hc
  obtain ⟨h1, h2, h3⟩ := normalize_min_props (bertUniqueKeywords words documents count)
    hsort hpos
  refine ⟨?_, h1, h2, ?_⟩
  · unfold extractWithSimulatedBERT
    rw [List.length_map]
    exact hlen
  · intro hne
    apply h3
    intro hnil
    apply hne
    unfold extractWithSimulatedBERT
    rw [hnil]
    rfl

theorem markCluster_fst (s : List String) (c : ℕ)
    (rest : List (List String × Option ℕ)) (j : ℕ) :
    ((markCluster s c rest)[j]?).map Prod.fst = (rest[j]?).map Prod.fst := by
  rw [markCluster_getElem, Option.map_map]
  congr 1
  funext q
  by_cases hcond : q.2 = none ∧ calculateSentenceSimilarity s q.1 > 0.5
  · simp [hcond]
  · simp [if_neg hcond]

theorem clusterLabels_opener : ∀ (l : List (List String × Option ℕ)) (c : ℕ),
    (∀ p ∈ l, ∀ k, p.2 = some k → k < c) →
    ∀ (j k : ℕ), (clusterLabels l c)[j]? = some k → c ≤ k →
    ∃ i, i ≤ j ∧ (clusterLabels l c)[i]? = some k ∧
      (∀ i' : ℕ, (clusterLabels l c)[i']? = some k → i ≤ i') ∧
      (i = j ∨ 0.5 < calculateSentenceSimilarity (((l[i]?).map Prod.fst).getD [])
        (((l[j]?).map Prod.fst).getD [])) := by
  intro l c
  induction l, c using clusterLabels.induct with
  | case1 c =>
      intro _ j k hj _
      rw [clusterLabels] at hj
      simp at hj
  | case2 s k0 rest c ih =>
      intro hinv j k hj hck
      have hk0 : k0 < c := hinv (s, some k0) (List.mem_cons_self _ _) k0 rfl
      rw [clusterLabels] at hj ⊢
      cases j with
      | zero =>
          rw [List.getElem?_cons_zero] at hj
          injection hj with hj
          omega
      | succ j =>
          rw [List.getElem?_cons_succ] at hj
          obtain ⟨i, hij, hi, hmin, hsim⟩ :=
            ih (fun p hp => hinv p (List.mem_cons_of_mem _ hp)) j k hj hck
          refine ⟨i + 1, Nat.succ_le_succ hij, ?_, ?_, ?_⟩
          · rw [List.getElem?_cons_succ]; exact hi
          · intro i' hi'
            cases i' with
            | zero =>
                rw [List.getElem?_cons_zero] at hi'
                injection hi' with hi'
                omega
            | succ i' =>
                rw [List.getElem?_cons_succ] at hi'
                exact Nat.succ_le_succ (hmin i' hi')
          · rcases hsim with h | h
            · exact Or.inl (by omega)
            · right
              rw [List.getElem?_cons_succ, List.getElem?_cons_succ]
              exact h
  | case3 s rest c ih =>
      intro hinv j k hj hck
      rw [clusterLabels] at hj ⊢
      cases j with
      | zero =>
          rw [List.getElem?_cons_zero] at hj
          refine ⟨0, le_refl 0, by rw [List.getElem?_cons_zero]; exact hj,
            fun i' _ => Nat.zero_le i', Or.inl rfl⟩
      | succ j =>
          rw [List.getElem?_cons_succ] at hj
          by_cases hk0 : k = c
          · obtain ⟨p, hp, hp2⟩ :=
              clusterLabels_low (markCluster s c rest) (c + 1) j k hj (by omega)
            rw [markCluster_getElem] at hp
            match hrest : rest[j]? with
            | none => rw [hrest] at hp; cases hp
            | some q₀ =>
                rw [hrest] at hp
                simp only [Option.map_some', Option.some_inj] at hp
                have hsim : 0.5 < calculateSentenceSimilarity s q₀.1 := by
                  by_cases hcond : q₀.2 = none ∧ calculateSentenceSimilarity s q₀.1 > 0.5
                  · exact hcond.2
                  · exfalso
                    rw [if_neg hcond] at hp
                    have hq₀mem : q₀ ∈ rest := List.getElem?_mem hrest
                    have hlt := hinv q₀ (List.mem_cons_of_mem _ hq₀mem) k
                      (by rw [hp]; exact hp2)
                    omega
                refine ⟨0, Nat.zero_le _, ?_, fun i' _ => Nat.zero_le i', Or.inr ?_⟩
                · rw [List.getElem?_cons_zero, hk0]
                · rw [List.getElem?_cons_zero, List.getElem?_cons_succ, hrest]
                  simpa using hsim
          · have hck1 : c + 1 ≤ k := by omega
            obtain ⟨i, hij, hi, hmin, hsim⟩ :=
              ih (markCluster_inv (fun p hp => hinv p (List.mem_cons_of_mem _ hp))) j k hj hck1
            refine ⟨i + 1, Nat.succ_le_succ hij, ?_, ?_, ?_⟩
            · rw [List.getElem?_cons_succ]; exact hi
            · intro i' hi'
              cases i' with
              | zero =>
                  rw [List.getElem?_cons_zero] at hi'
                  injection hi' with hi'
                  omega
              | succ i' =>
                  rw [List.getElem?_cons_succ] at hi'
                  exact Nat.succ_le_succ (hmin i' hi')
            · rcases hsim with h | h
              · exact Or.inl (by omega)
              · right
                rw [List.getElem?_cons_succ, List.getElem?_cons_succ,
                  ← markCluster_fst s c rest i, ← markCluster_fst s c rest j]
                exact h

theorem backfillGo_stuck {ranked : List Scored} {num : ℕ} {sel : List Scored}
    (hlen : sel.length < num) (hlt : sel.length < ranked.length)
    (hmem : ranked.getD sel.length default ∈ sel) :
    ∀ fuel, backfillGo ranked num fuel sel = none := by
  classical
  intro fuel
  induction fuel with
  | zero =>
      unfold backfillGo
      rw [if_pos ⟨hlen, hlt⟩]
  | succ n ih =>
      unfold backfillGo
      rw [if_pos ⟨hlen, hlt⟩]
      show (if ranked.getD sel.length default ∈ sel then backfillGo ranked num n sel
        else backfillGo ranked num n (sel ++ [ranked.getD sel.length default])) = none
      rw [if_pos hmem]
      exact ih

/-! ### Claim theorems -/

/-- C5: for a non-empty document set, every value of the map `calculateIDF`
returns equals `log10((D+1)/(df+1)) + 1` with `D` the document count and
`1 ≤ df ≤ D` the number of documents containing the token, and is therefore
at least `1`. -/
theorem calculateIDF_values (documents : List Document) (_hd : documents ≠ []) :
    ∀ p ∈ calculateIDF documents,
      p.2 = idfVal documents.length (docFreq documents p.1) ∧
      1 ≤ docFreq documents p.1 ∧
      docFreq documents p.1 ≤ documents.length ∧
      (1 : ℝ) ≤ p.2 := by
  intro p hp
  unfold calculateIDF at hp
  rw [List.mem_map] at hp
  obtain ⟨w, hw, rfl⟩ := hp
  exact ⟨rfl, one_le_docFreq_of_mem_idfKeys hw, docFreq_le_length _ _,
    one_le_idfVal (docFreq_le_length _ _)⟩

/-- Witness for C5 at the one-document set `[[["cat"]]]`. -/
theorem calculateIDF_values_witness :
    (1 : ℝ) ≤ idfVal 1 (docFreq [[["cat"]]] "cat") := by
  have hmem : ("cat", idfVal 1 (docFreq [[["cat"]]] "cat")) ∈ calculateIDF [[["cat"]]] := by
    rw [show calculateIDF [[["cat"]]] =
      [("cat", idfVal 1 (docFreq [[["cat"]]] "cat"))] from rfl]
    exact List.mem_singleton_self _
  exact (calculateIDF_values [[["cat"]]] (by simp) _ hmem).2.2.2

/-- C3 (code bug): the summarizer computes `wordCount` with
`phrase.split(/\\s+/)`, a regex that matches a literal backslash followed by
`s`, so a three-word phrase has `wordCount = 1` and a twice-occurring
three-word phrase enters the merged keyword-score map with weight
`(2/1) * 1 * 1.5 = 3`, not the claimed `(2/1) * (1 + (3-1)*0.25) * 1.5 = 4.5`. -/
theorem summary_phrase_weight_bug :
    phraseWordCount "big cat hat" = 1 ∧
    mergeKeywordScores [] [("big cat hat", 2)] 1 =
      [("big cat hat", summaryPhraseScore 2 1 "big cat hat")] ∧
    summaryPhraseScore 2 1 "big cat hat" = 3 ∧
    summaryPhraseScore 2 1 "big cat hat" ≠ ((2 : ℝ) / 1) * (1 + (3 - 1) * 0.25) * 1.5 := by
  have h1 : phraseWordCount "big cat hat" = 1 := by decide
  have h3 : summaryPhraseScore 2 1 "big cat hat" = 3 := by
    simp [summaryPhraseScore, h1]
    norm_num
  refine ⟨h1, ?_, h3, ?_⟩
  · simp [mergeKeywordScores]
  · rw [h3]; norm_num

/-- C4 (code bug): the summarizer's length penalty computes the sentence
length with `sentence.split(/\\s+/)` (literal backslash-`s`), so a six-token
sentence counts as length 1 and is multiplied by `0.7`, not left unchanged as
the claim states for sentences of 5 to 40 tokens. -/
theorem length_penalty_bug :
    ("the quick brown fox jumps high".data.splitOn ' ').length = 6 ∧
    sentenceLengthFactor "the quick brown fox jumps high" = 0.7 ∧
    (0.7 : ℝ) ≠ 1 := by
  have h : (jsSplitEscS "the quick brown fox jumps high").length = 1 := by decide
  refine ⟨by decide, ?_, by norm_num⟩
  simp [sentenceLengthFactor, h]

/-- C7: the clusterer returns one label per sentence, in sentence order; the
labels used form the contiguous range `0..clusterCount-1`; and membership is
decided solely against the cluster's opening sentence: every labelled
sentence either is the first (least-indexed) sentence of its cluster or has
cosine similarity above 0.5 to that opening sentence, whose index is at most
its own (single left-to-right pass, assigned sentences never re-examined). -/
theorem cluster_invariants (sents : List (List String)) :
    (clusterSimilarSentences sents).length = sents.length ∧
    (∀ x ∈ clusterSimilarSentences sents, x < clusterCount sents) ∧
    (∀ k : ℕ, k < clusterCount sents → k ∈ clusterSimilarSentences sents) ∧
    (∀ (j k : ℕ), (clusterSimilarSentences sents)[j]? = some k →
      ∃ i, i ≤ j ∧ (clusterSimilarSentences sents)[i]? = some k ∧
        (∀ i' : ℕ, (clusterSimilarSentences sents)[i']? = some k → i ≤ i') ∧
        (i = j ∨ 0.5 < calculateSentenceSimilarity (sents.getD i []) (sents.getD j []))) := by
  unfold clusterSimilarSentences clusterCount
  have hinv : ∀ p ∈ sents.map (fun s => (s, (none : Option ℕ))), ∀ k : ℕ,
      p.2 = some k → k < 0 := by
    intro p hp k hk
    rw [List.mem_map] at hp
    obtain ⟨t, _, rfl⟩ := hp
    cases hk
  have hvec : ∀ i : ℕ,
      (((sents.map (fun s => (s, (none : Option ℕ))))[i]?).map Prod.fst).getD [] =
        sents.getD i [] := by
    intro i
    rw [List.getElem?_map, Option.map_map]
    simp [Function.comp_def, List.getD_eq_getElem?_getD]
  refine ⟨?_, clusterLabels_lt _ _ hinv,
    fun k hk => clusterLabels_mem_of_lt _ _ k (Nat.zero_le k) hk, ?_⟩
  · rw [clusterLabels_length]
    simp
  · intro j k hj
    obtain ⟨i, hij, hi, hmin, hsim⟩ :=
      clusterLabels_opener _ _ hinv j k hj (Nat.zero_le k)
    refine ⟨i, hij, hi, hmin, ?_⟩
    rcases hsim with h | h
    · exact Or.inl h
    · right
      rw [← hvec i, ← hvec j]
      exact h

/-- C1 (code bug): the sentence-selection phase does not always terminate.
On the ranked list `hangRanked` (five sentences, clusters 0,0,1,0,1, every
score under the 0.8 override) with target 3, the greedy pass selects the
sentences at ranked positions 0 and 2; the backfill loop then reads
`rankedSentences[2]` — already selected — pushes nothing, and re-reads the
same element forever: no amount of fuel finishes it. -/
theorem selection_backfill_diverges (fuel : ℕ) :
    selectSentences hangRanked 3 fuel = none := by
  have hg : greedyGo 3 hangRanked [] [] =
      [{ sentence := "s0", originalIndex := 0, score := 0.6, cluster := 0 },
       { sentence := "s2", originalIndex := 2, score := 0.4, cluster := 1 }] := by
    norm_num [greedyGo, hangRanked]
  unfold selectSentences
  rw [hg]
  apply backfillGo_stuck
  · norm_num
  · norm_num [hangRanked]
  · show hangRanked.getD 2 default ∈ _
    rw [show hangRanked.getD 2 default =
      { sentence := "s2", originalIndex := 2, score := 0.4, cluster := 1 } from rfl]
    exact List.mem_cons_of_mem _ (List.mem_cons_self _ _)

/-- C6: `cosineSimilarity` gives `1` on any vector of non-zero magnitude
paired with itself, is symmetric, and returns `0` whenever either argument
has zero magnitude (JavaScript record keys are unique, hence the `Nodup`
hypotheses on the key lists). -/
theorem cosine_similarity_props (v a b : List (String × ℝ)) :
    ((v.map Prod.fst).Nodup → magnitudeOf v ≠ 0 → cosineSimilarity v v = 1) ∧
    ((a.map Prod.fst).Nodup → (b.map Prod.fst).Nodup →
      cosineSimilarity a b = cosineSimilarity b a) ∧
    (magnitudeOf a = 0 ∨ magnitudeOf b = 0 → cosineSimilarity a b = 0) := by
  refine ⟨?_, ?_, ?_⟩
  · intro hnd hm
    unfold cosineSimilarity
    rw [if_neg (by tauto), dotJS_self hnd]
    unfold magnitudeOf at hm ⊢
    rw [Real.mul_self_sqrt (sqSum_nonneg v)]
    have hS : sqSum v ≠ 0 := fun h0 => hm (by rw [h0, Real.sqrt_zero])
    exact div_self hS
  · intro hna hnb
    unfold cosineSimilarity
    by_cases h : magnitudeOf a = 0 ∨ magnitudeOf b = 0
    · rw [if_pos h, if_pos (Or.symm h)]
    · rw [if_neg h, if_neg (fun hc => h (Or.symm hc)), dotJS_comm hna hnb, mul_comm]
  · intro h
    unfold cosineSimilarity
    rw [if_pos h]

/-- C9: on the request (keyword_extraction, textLength 6000, priority speed,
optional fields absent) the additive scoring gives `enhanced_tfidf` 3 points
(speed bonus) and `bert_keyword` 1 point (long-text medium-resource bonus),
so `enhanced_tfidf` is recommended. -/
theorem speed_request_recommendation :
    scoredAlgorithms speedRequest = [("enhanced_tfidf", 3), ("bert_keyword", 1)] ∧
    recommendAlgorithmE speedRequest = Except.ok
      { recommendedAlgorithm := "enhanced_tfidf", confidence := 1,
        alternativeAlgorithms := [("bert_keyword", 1 / 3)] } := by
  constructor
  · simp [scoredAlgorithms, compatibleAlgorithms, algorithms, scoreAlgo, tierScore,
      sortDescBy, insertDescBy, speedRequest]
  · simp [recommendAlgorithmE, scoredAlgorithms, compatibleAlgorithms, algorithms, scoreAlgo,
      tierScore, sortDescBy, insertDescBy, maxOf, speedRequest]

/-- C10: the keyword-extraction response's `method` field is always
`"enhanced_" ++ method` and never the requested method name verbatim. -/
theorem extract_method_prefixed (words : List String) (documents : List Document)
    (count : ℕ) (method : String) :
    (enhancedExtractKeywords words documents count method).method = "enhanced_" ++ method ∧
    (enhancedExtractKeywords words documents count method).method ≠ method := by
  refine ⟨rfl, ?_⟩
  rw [show (enhancedExtractKeywords words documents count method).method =
    "enhanced_" ++ method from rfl]
  intro h
  have hl := congrArg String.length h
  have h9 : "enhanced_".length = 9 := rfl
  rw [String.length_append, h9] at hl
  omega

/-- C8: `summarizeText` and `extractKeywords` return an error exactly when
the text is empty or whitespace-only (their bodies contain no other throw and
an `Except` carries no partial result), and `recommendAlgorithm` errors when
no profile matches the task type. -/
theorem guard_errors {α : Type} (text : String) (r : α) (words : List String)
    (documents : List Document) (count : ℕ) (method : String)
    (req : AlgorithmRecommendationRequest) :
    (summarizeTextE text r = Except.error "No text provided for summarization" ↔
      jsTrimIsEmpty text = true) ∧
    (extractKeywordsE text words documents count method =
      Except.error "No text provided for keyword extraction" ↔ jsTrimIsEmpty text = true) ∧
    (compatibleAlgorithms req.taskType = [] →
      recommendAlgorithmE req = Except.error "Failed to generate algorithm recommendation") := by
  refine ⟨?_, ?_, ?_⟩
  · unfold summarizeTextE
    split <;> simp_all
  · unfold extractKeywordsE
    split <;> simp_all
  · intro h
    unfold recommendAlgorithmE
    rw [if_pos h]

/-- C2 (amended): every method returns at most `count` keywords sorted by
score descending; `enhanced_tfidf` and `bert_based` normalize by the maximum
score of the result set, so their scores lie in (0, 1] with top score exactly
1 whenever the result is non-empty; `standard_tfidf` returns the raw TF-IDF
scores truncated to `count` WITHOUT normalization (the original claim fails
on it, see `standard_tfidf_not_normalized`). -/
theorem extract_keywords_props (words : List String) (documents : List Document)
    (count : ℕ) (hd : documents ≠ []) (hc : 0 < count) :
    ((extractWithStandardTFIDF words documents count).length ≤ count ∧
      SortedDesc (extractWithStandardTFIDF words documents count)) ∧
    ((extractWithEnhancedTFIDF words documents count).length ≤ count ∧
      SortedDesc (extractWithEnhancedTFIDF words documents count) ∧
      (∀ p ∈ extractWithEnhancedTFIDF words documents count, 0 < p.2 ∧ p.2 ≤ 1) ∧
      (extractWithEnhancedTFIDF words documents count ≠ [] →
        ((extractWithEnhancedTFIDF words documents count).headD ("", 0)).2 = 1)) ∧
    ((extractWithSimulatedBERT words documents count).length ≤ count ∧
      SortedDesc (extractWithSimulatedBERT words documents count) ∧
      (∀ p ∈ extractWithSimulatedBERT words documents count, 0 < p.2 ∧ p.2 ≤ 1) ∧
      (extractWithSimulatedBERT words documents count ≠ [] →
        ((extractWithSimulatedBERT words documents count).headD ("", 0)).2 = 1)) :=
  ⟨⟨(standardKeywords_props words documents count).1,
    (standardKeywords_props words documents count).2.1⟩,
    enhancedKeywords_props words documents count hd,
    bertKeywords_props words documents count hd hc⟩

/-- Witness for C2 at a concrete call. -/
theorem extract_keywords_props_witness :
    ((extractWithStandardTFIDF ["cat", "cat", "dog"] [[["cat", "cat", "dog"]]] 2).length ≤ 2 ∧
      SortedDesc (extractWithStandardTFIDF ["cat", "cat", "dog"] [[["cat", "cat", "dog"]]] 2)) ∧
    ((extractWithEnhancedTFIDF ["cat", "cat", "dog"] [[["cat", "cat", "dog"]]] 2).length ≤ 2 ∧
      SortedDesc (extractWithEnhancedTFIDF ["cat", "cat", "dog"] [[["cat", "cat", "dog"]]] 2) ∧
      (∀ p ∈ extractWithEnhancedTFIDF ["cat", "cat", "dog"] [[["cat", "cat", "dog"]]] 2,
        0 < p.2 ∧ p.2 ≤ 1) ∧
      (extractWithEnhancedTFIDF ["cat", "cat", "dog"] [[["cat", "cat", "dog"]]] 2 ≠ [] →
        ((extractWithEnhancedTFIDF ["cat", "cat", "dog"]
          [[["cat", "cat", "dog"]]] 2).headD ("", 0)).2 = 1)) ∧
    ((extractWithSimulatedBERT ["cat", "cat", "dog"] [[["cat", "cat", "dog"]]] 2).length ≤ 2 ∧
      SortedDesc (extractWithSimulatedBERT ["cat", "cat", "dog"] [[["cat", "cat", "dog"]]] 2) ∧
      (∀ p ∈ extractWithSimulatedBERT ["cat", "cat", "dog"] [[["cat", "cat", "dog"]]] 2,
        0 < p.2 ∧ p.2 ≤ 1) ∧
      (extractWithSimulatedBERT ["cat", "cat", "dog"] [[["cat", "cat", "dog"]]] 2 ≠ [] →
        ((extractWithSimulatedBERT ["cat", "cat", "dog"]
          [[["cat", "cat", "dog"]]] 2).headD ("", 0)).2 = 1)) :=
  extract_keywords_props ["cat", "cat", "dog"] [[["cat", "cat", "dog"]]] 2
    (by simp) (by norm_num)

/-- C2 counterexample to the claim as stated: for `standard_tfidf` on the
text "cat cat dog" (one sentence, one document) the result is non-empty and
its maximum score is 2/3, not 1 — the standard path performs no
normalization by the maximum. -/
theorem standard_tfidf_not_normalized :
    extractWithStandardTFIDF ["cat", "cat", "dog"] [[["cat", "cat", "dog"]]] 5 =
      [("cat", (2 : ℝ) / 3), ("dog", (1 : ℝ) / 3)] ∧
    (enhancedExtractKeywords ["cat", "cat", "dog"] [[["cat", "cat", "dog"]]] 5
      "standard_tfidf").keywords = [("cat", (2 : ℝ) / 3), ("dog", (1 : ℝ) / 3)] ∧
    ((2 : ℝ) / 3 ≠ 1) := by
  have hfilter : ["cat", "cat", "dog"].filter isValidWord = ["cat", "cat", "dog"] := by decide
  have hfo : firstOccs ["cat", "cat", "dog"] = ["cat", "dog"] := by decide
  have hc1 : ["cat", "cat", "dog"].count "cat" = 2 := by decide
  have hc2 : ["cat", "cat", "dog"].count "dog" = 1 := by decide
  have hTF : calculateTF ["cat", "cat", "dog"] = [("cat", (2 : ℝ) / 3), ("dog", (1 : ℝ) / 3)] := by
    simp only [calculateTF, hfilter, hfo, List.map_cons, List.map_nil, hc1, hc2]
    norm_num
  have hkeys : idfKeys [[["cat", "cat", "dog"]]] = ["cat", "dog"] := by decide
  have hdf1 : docFreq [[["cat", "cat", "dog"]]] "cat" = 1 := by decide
  have hdf2 : docFreq [[["cat", "cat", "dog"]]] "dog" = 1 := by decide
  have hidf1 : idfVal 1 1 = 1 := by
    unfold idfVal
    norm_num [Real.logb_one]
  have hIDF : calculateIDF [[["cat", "cat", "dog"]]] = [("cat", (1 : ℝ)), ("dog", 1)] := by
    simp only [calculateIDF, hkeys, List.map_cons, List.map_nil, hdf1, hdf2,
      List.length_singleton]
    rw [hidf1]
  have hTFIDF : calculateTFIDF (calculateTF ["cat", "cat", "dog"])
      (calculateIDF [[["cat", "cat", "dog"]]]) =
      [("cat", (2 : ℝ) / 3), ("dog", (1 : ℝ) / 3)] := by
    rw [hTF, hIDF]
    have hb1 : ("cat" == "dog") = false := by decide
    have hb2 : ("cat" == "cat") = true := by decide
    have hb3 : ("dog" == "dog") = true := by decide
    simp only [calculateTFIDF, lookupOr, List.map_cons, List.map_nil, List.find?,
      hb1, hb2, hb3]
    norm_num
  have hsorted : sortDescBy Prod.snd [("cat", (2 : ℝ) / 3), ("dog", (1 : ℝ) / 3)] =
      [("cat", (2 : ℝ) / 3), ("dog", (1 : ℝ) / 3)] := by
    norm_num [sortDescBy, insertDescBy]
  have hstd : extractWithStandardTFIDF ["cat", "cat", "dog"] [[["cat", "cat", "dog"]]] 5 =
      [("cat", (2 : ℝ) / 3), ("dog", (1 : ℝ) / 3)] := by
    unfold extractWithStandardTFIDF
    rw [hTFIDF, hsorted]
    rfl
  refine ⟨hstd, ?_, by norm_num⟩
  simp only [enhancedExtractKeywords]
  rw [if_neg (show ¬("standard_tfidf" = "enhanced_tfidf") by decide),
    if_neg (show ¬("standard_tfidf" = "bert_based") by decide),
    if_pos trivial]
  exact hstd

end NLP
